import Mathlib

/-!
Verification of the pmux process supervisor.

This development gives a shallow embedding of the parts of the pmux
repository that its specification talks about: the tmux session adapter
(`tmux/tmux.go`), the process wrapper and its on-disk session layout
(`pwrap/pwrap.go`), the progress comm-bridge (`pwrap/ucb.go`), and the
per-wrapper HTTP command handler (`http/pwrapapi/router.go`).  Strings are
modelled as `List Char`, file systems and HTTP effects as explicit state,
and the concurrent progress multiplexer as a small-step transition system
whose atomic actions are the code's mutex-protected critical sections.
-/

namespace Pmux

/-! ## Session identifiers (tmux/tmux.go) -/

/-- Characters of the fixed namespace tag carried by every pmux session
identifier (the literal `pmux-` in `NewSID` and `validateSID`). -/
def pmuxPfx : List Char := "pmux-".data

/-- Model of `NewSID` (tmux/tmux.go): a fresh identifier is the namespace
tag followed by the freshly generated UUID suffix `u`. -/
def NewSID (u : List Char) : List Char := pmuxPfx ++ u

/-- Model of `validateSID` (tmux/tmux.go): validation succeeds exactly when
the identifier starts with the namespace tag. -/
def validateSID (s : List Char) : Bool := pmuxPfx.isPrefixOf s

/-- Bridge between the executable check and the propositional one. -/
lemma validateSID_eq_true_iff (s : List Char) :
    validateSID s = true ↔ pmuxPfx <+: s := by
  unfold validateSID
  exact List.isPrefixOf_iff_prefix

/-! ## Session listing (tmux/tmux.go, ListSessions) -/

/-- Model of the SID extraction applied to each `tmux list-sessions` output
line: `strings.Split(line, ":")[0]`, i.e. the segment before the first
colon (the whole line when no colon occurs). -/
def sidOfLine (l : List Char) : List Char := l.takeWhile (fun c => c ≠ ':')

/-- Outcome of invoking the external `tmux list-sessions` subprocess, as
consumed by `ListSessions`: whether the invocation itself failed, the
output lines the scanner produced, and whether the scanner stopped with an
error after those lines. -/
structure ToolOutput where
  execErr : Bool
  lines : List (List Char)
  scanErr : Bool

/-- Model of `ListSessions` (tmux/tmux.go).  On a subprocess error it
returns the empty accumulator together with the error.  Otherwise it scans
the lines in order, keeps each line's SID when `validateSID` accepts it and
skips the line otherwise, and finally reports the scanner's error state
next to the (possibly partial) accumulator. -/
def ListSessions (o : ToolOutput) : List (List Char) × Bool :=
  if o.execErr then ([], true)
  else
    (o.lines.filterMap (fun l =>
        let sid := sidOfLine l
        if validateSID sid then some sid else none),
     o.scanErr)

/-! ## Session directory trashing (pwrap/pwrap.go, trashFiles) -/

/-- Canonical file basenames owned by the wrapper, the `expected` list of
`trashFiles` (pwrap/pwrap.go). -/
def canonicalFiles : List (List Char) := ["stderr".data, "stdout".data, "config".data, "sid".data]

/-- On-disk footprint of one wrapper as observed by `trashFiles`:
whether the working directory exists, the basenames of the files inside it,
and whether the rendezvous socket file (which lives outside the working
directory, at `<tempdir>/<sid>.sock`) exists. -/
structure WorkDir where
  dirExists : Bool
  entries : List (List Char)
  sockExists : Bool
deriving DecidableEq

/-- Model of `trashFiles` (pwrap/pwrap.go).  `filepath.Walk` visits the
working directory itself (whose basename is the SID, never a canonical
file name) and then each entry, counting every visit and removing the
entries whose basename is canonical.  If the count equals
`len(expected)+1` the whole directory is removed and the function returns
at once; only otherwise does control reach the explicit
`os.Remove(p.SockPath())`.  A missing directory makes the walk fail
(the error is discarded), leaving the count at zero. -/
def trashFiles (s : WorkDir) : WorkDir :=
  if s.dirExists then
    if s.entries.length + 1 = canonicalFiles.length + 1 then
      { dirExists := false, entries := [], sockExists := s.sockExists }
    else
      { dirExists := true,
        entries := s.entries.filter (fun e => decide (e ∉ canonicalFiles)),
        sockExists := false }
  else
    { s with sockExists := false }

/-- Evaluation of `trashFiles` on an existing directory whose walk count
matches the canonical count. -/
lemma trashFiles_eval_clean (en : List (List Char)) (sk : Bool)
    (hc : en.length = canonicalFiles.length) :
    trashFiles ⟨true, en, sk⟩ = ⟨false, [], sk⟩ := by
  simp [trashFiles, hc]

/-- Evaluation of `trashFiles` on an existing directory whose walk count
differs from the canonical count. -/
lemma trashFiles_eval_dirty (en : List (List Char)) (sk : Bool)
    (hc : ¬ en.length = canonicalFiles.length) :
    trashFiles ⟨true, en, sk⟩ =
      ⟨true, en.filter (fun e => decide (e ∉ canonicalFiles)), false⟩ := by
  simp [trashFiles, hc]

/-! ## Theorems for claims C8, C9, C1 -/

/-- Claim C8: every identifier produced by `NewSID` is the tag `pmux-`
followed by the generated suffix and passes `validateSID`, while every
identifier that does not start with `pmux-` is rejected: generation and
validation are symmetric. -/
theorem newSID_validateSID_symm :
    (∀ u : List Char, validateSID (NewSID u) = true ∧ NewSID u = pmuxPfx ++ u) ∧
    (∀ s : List Char, ¬ pmuxPfx <+: s → validateSID s = false) := by
  constructor
  · intro u
    refine ⟨?_, rfl⟩
    rw [validateSID_eq_true_iff]
    exact ⟨u, rfl⟩
  · intro s h
    rw [← Bool.not_eq_true, validateSID_eq_true_iff]
    exact h

/-- Witness for C8 at concrete inputs: a generated SID validates, and a
foreign identifier fails validation. -/
theorem newSID_validateSID_symm_witness :
    validateSID (NewSID "1234".data) = true ∧ validateSID "tmux-1".data = false := by
  refine ⟨(newSID_validateSID_symm.1 "1234".data).1, ?_⟩
  exact newSID_validateSID_symm.2 "tmux-1".data (by decide)

/-- Claim C9: every identifier returned by `ListSessions` starts with the
`pmux-` tag (foreign lines are filtered out), and a non-fatal scanner error
can accompany a valid, non-empty partial list, so callers always receive a
prefix-clean list next to the error flag. -/
theorem listSessions_prefix_clean :
    (∀ (o : ToolOutput) (x : List Char), x ∈ (ListSessions o).1 → pmuxPfx <+: x) ∧
    (∃ o : ToolOutput, (ListSessions o).2 = true ∧ (ListSessions o).1 ≠ []) := by
  constructor
  · intro o x hx
    by_cases he : o.execErr = true
    · simp [ListSessions, he] at hx
    · simp only [ListSessions, he, if_false, Bool.false_eq_true, List.mem_filterMap] at hx
      obtain ⟨l, _, heq⟩ := hx
      by_cases hv : validateSID (sidOfLine l) = true
      · rw [if_pos hv, Option.some_inj] at heq
        subst heq
        exact (validateSID_eq_true_iff _).mp hv
      · rw [if_neg hv] at heq
        cases heq
  · exact ⟨⟨false, ["pmux-a:1".data], true⟩, by decide, by decide⟩

/-- Witness for C9 at a concrete tool output mixing a pmux session with a
foreign one. -/
theorem listSessions_prefix_clean_witness :
    pmuxPfx <+: "pmux-a".data := by
  exact listSessions_prefix_clean.1 ⟨false, ["foreign:0".data, "pmux-a:1".data], false⟩
    "pmux-a".data (by decide)

/-- Claim C1 counterexample: on a working directory holding exactly the
canonical files and nothing else, `trashFiles` removes the whole directory
but returns before the explicit socket removal, so the rendezvous socket
file survives — contradicting the claim that the socket file is removed in
every case. -/
theorem trashFiles_sock_survives_clean_dir :
    (trashFiles ⟨true, canonicalFiles, true⟩).dirExists = false ∧
    ¬ (trashFiles ⟨true, canonicalFiles, true⟩).sockExists = false := by
  decide

/-- Claim C1 as amended: for every wrapper whose working directory exists,
`trashFiles` removes every canonical entry; when the walk saw exactly
`len(canonical)+1` entries it removes the whole directory (leaving the
socket file untouched), otherwise it keeps the directory together with
every foreign entry and removes the rendezvous socket file by path. -/
theorem trashFiles_spec (s : WorkDir) (h : s.dirExists = true) :
    (∀ e ∈ s.entries, e ∈ canonicalFiles → e ∉ (trashFiles s).entries) ∧
    (if s.entries.length = canonicalFiles.length then
        (trashFiles s).dirExists = false ∧ (trashFiles s).entries = [] ∧
          (trashFiles s).sockExists = s.sockExists
      else
        (trashFiles s).dirExists = true ∧
          (∀ e ∈ s.entries, e ∉ canonicalFiles → e ∈ (trashFiles s).entries) ∧
          (trashFiles s).sockExists = false) := by
  obtain ⟨d, en, sk⟩ := s
  simp only at h
  subst h
  by_cases hc : en.length = canonicalFiles.length
  · rw [trashFiles_eval_clean en sk hc, if_pos hc]
    exact ⟨fun e _ _ => by simp, rfl, rfl, rfl⟩
  · rw [trashFiles_eval_dirty en sk hc, if_neg hc]
    refine ⟨?_, rfl, ?_, rfl⟩
    · intro e _ hce
      simp only [List.mem_filter, decide_eq_true_eq]
      intro hcontra
      exact hcontra.2 hce
    · intro e he hce
      simp only [List.mem_filter, decide_eq_true_eq]
      exact ⟨he, hce⟩

/-- Witness for C1's amended theorem on a directory holding one foreign
file next to the canonical ones. -/
theorem trashFiles_spec_witness :
    "extra-file".data ∈ (trashFiles ⟨true, canonicalFiles ++ ["extra-file".data], true⟩).entries ∧
    "config".data ∉ (trashFiles ⟨true, canonicalFiles ++ ["extra-file".data], true⟩).entries := by
  have h := trashFiles_spec ⟨true, canonicalFiles ++ ["extra-file".data], true⟩ rfl
  have hlen : ¬ (canonicalFiles ++ ["extra-file".data]).length = canonicalFiles.length := by
    decide
  constructor
  · have h2 := h.2
    rw [if_neg hlen] at h2
    exact h2.2.1 "extra-file".data (by decide) (by decide)
  · exact h.1 "config".data (by decide) (by decide)

/-! ## Session kill and trash (pwrap/pwrap.go, tmux/tmux.go) -/

/-- Wrapper state relevant to session management: the stored SID
(`PWrap.sid`), empty once the session has been killed. -/
structure PWrapSt where
  sid : List Char
deriving DecidableEq

/-- Model of `tmux.KillSession` (tmux/tmux.go): validates the SID first and
only on success invokes the external tool.  Returns the SIDs the tool was
invoked on and whether an error was returned; `killOk` fixes the external
tool's outcome. -/
def tmuxKillSession (killOk : Bool) (sid : List Char) : List (List Char) × Bool :=
  if validateSID sid then ([sid], !killOk) else ([], true)

/-- Model of `PWrap.KillSession` (pwrap/pwrap.go): errors out without
touching tmux when no SID is set; otherwise kills the tmux session and, on
success, clears the stored SID.  Returns the new wrapper state, the tool
invocations made, and the error flag. -/
def KillSession (killOk : Bool) (p : PWrapSt) : PWrapSt × List (List Char) × Bool :=
  if p.sid = [] then (p, [], true)
  else
    let r := tmuxKillSession killOk p.sid
    if r.2 then (p, r.1, true) else (⟨[]⟩, r.1, false)

/-- Model of `PWrap.Trash` (pwrap/pwrap.go): kills the tmux session only
when a SID is set (a kill error is merely logged), then trashes the
session files.  Returns the tool invocations made and the resulting
on-disk state. -/
def Trash (killOk : Bool) (p : PWrapSt) (w : WorkDir) : List (List Char) × WorkDir :=
  if p.sid = [] then ([], trashFiles w)
  else ((tmuxKillSession killOk p.sid).1, trashFiles w)

/-- Claim C10: after a successful `KillSession` the wrapper's SID is
cleared, so a second `KillSession` fails without invoking the terminal
multiplexer, and a subsequent `Trash` skips the kill step and only trashes
the files. -/
theorem killSession_clears_sid (p : PWrapSt) (killOk : Bool)
    (hs : ¬ p.sid = []) (hv : validateSID p.sid = true) (hk : killOk = true) :
    (KillSession killOk p).1.sid = [] ∧ (KillSession killOk p).2.2 = false ∧
    (∀ k2 : Bool, KillSession k2 (KillSession killOk p).1 =
      ((KillSession killOk p).1, [], true)) ∧
    (∀ (k2 : Bool) (w : WorkDir),
      Trash k2 (KillSession killOk p).1 w = ([], trashFiles w)) := by
  subst hk
  have he : KillSession true p = (⟨[]⟩, [p.sid], false) := by
    unfold KillSession tmuxKillSession
    rw [if_neg hs, if_pos hv]
    simp
  rw [he]
  exact ⟨rfl, rfl, fun k2 => by simp [KillSession], fun k2 w => by simp [Trash]⟩

/-- Witness for C10 at a concrete wrapper with a valid SID. -/
theorem killSession_clears_sid_witness :
    (KillSession true ⟨"pmux-x".data⟩).1.sid = [] ∧
    Trash true (KillSession true ⟨"pmux-x".data⟩).1 ⟨false, [], true⟩ =
      ([], trashFiles ⟨false, [], true⟩) := by
  have h := killSession_clears_sid ⟨"pmux-x".data⟩ true (by decide) (by decide) rfl
  exact ⟨h.1, h.2.2.2 true ⟨false, [], true⟩⟩

/-! ## Comm-bridge fan-out, functional view (pwrap/ucb.go, Write) -/

/-- Bridge state observable by `Write`: the stored last payload and the
channel contents of each subscribed client. -/
structure BridgeSt where
  last : Option (List Char)
  clients : List (List (List Char))
deriving DecidableEq

/-- Functional model of `UnixCommBridge.Write` (pwrap/ucb.go), describing
its effect once every channel send has completed: the payload is stored as
`last` under the `last` mutex, then under the `clients` mutex it is sent to
each subscribed client's channel, and the returned byte count is
`len(p) * len(b.clients.m)`. -/
def Write (b : BridgeSt) (p : List Char) : BridgeSt × Nat :=
  ({ last := some p, clients := b.clients.map (fun q => q ++ [p]) },
   p.length * b.clients.length)

/-- Claim C3: `Write p` stores `p` as the new last payload, appends `p` to
every currently subscribed client's channel, and returns `len(p)` times
the subscriber count; zero-byte writes and writes with no subscribers are
legal and return 0. -/
theorem write_fanout_spec (b : BridgeSt) (p : List Char) :
    (Write b p).1.last = some p ∧
    (Write b p).1.clients.length = b.clients.length ∧
    (∀ (i : Nat) (q : List (List Char)), b.clients[i]? = some q →
      (Write b p).1.clients[i]? = some (q ++ [p])) ∧
    (Write b p).2 = p.length * b.clients.length ∧
    (p = [] → (Write b p).2 = 0) ∧
    (b.clients = [] → (Write b p).2 = 0) := by
  refine ⟨rfl, by simp [Write], ?_, rfl, ?_, ?_⟩
  · intro i q hq
    simp [Write, hq]
  · intro hp
    simp [Write, hp]
  · intro hb
    simp [Write, hb]

/-- Witness for C3 on a bridge with two subscribers and a two-byte
payload. -/
theorem write_fanout_spec_witness :
    (Write ⟨none, [[], ["a".data]]⟩ "xy".data).2 = 4 ∧
    (Write ⟨none, [[], ["a".data]]⟩ "xy".data).1.clients[0]? = some ([] ++ ["xy".data]) := by
  have h := write_fanout_spec ⟨none, [[], ["a".data]]⟩ "xy".data
  refine ⟨?_, h.2.2.1 0 [] (by decide)⟩
  rw [h.2.2.2.1]
  decide

/-! ## Wrapper orchestrator (pwrap/pwrap.go: Register, Callback, Run; cmd/wrap.go) -/

/-- Status string of a successful run in the callback payload
(pwrap/pwrap.go, `WrapStatusSuccess`). -/
def wrapStatusSuccess : List Char := "success".data

/-- Status string of a failed run in the callback payload
(pwrap/pwrap.go, `WrapStatusError`). -/
def wrapStatusError : List Char := "error".data

/-- A JSON callback body POSTed to the registration URL: the status field
and the error-message field. -/
structure CallbackPost where
  status : List Char
  errMsg : List Char
deriving DecidableEq

/-- Error cases `Run` can return (pwrap/pwrap.go). -/
inductive RunErr
  | portErr
  | regErr (status : Nat)
  | openErr
  | workerErr (msg : List Char)
  | callbackErr (status : Nat)
deriving DecidableEq

/-- Environment fixing the outcome of every effect one `Run` invocation
performs: the configured registration URL, whether a free port was found,
the HTTP status answering the registration POST (when attempted), whether
the stdout/stderr files opened, the worker/server phase's outcome (`none` =
success), and the HTTP status answering the callback POST. -/
structure RunEnv where
  regURL : List Char
  portOk : Bool
  registerStatus : Nat
  openFilesOk : Bool
  workerErr : Option (List Char)
  callbackStatus : Nat
deriving DecidableEq

/-- Model of `PWrap.Register` (pwrap/pwrap.go): skipped when the
registration URL is empty; otherwise POSTs the port and succeeds only on
HTTP 200.  Returns whether the POST was sent and whether it errored. -/
def Register (e : RunEnv) : Bool × Bool :=
  if e.regURL = [] then (false, false)
  else (true, decide (¬ e.registerStatus = 200))

/-- The callback body `PWrap.Callback` builds: status `success` with an
empty message for a nil error, status `error` with the message
otherwise. -/
def callbackPayload (err : Option (List Char)) : CallbackPost :=
  match err with
  | none => ⟨wrapStatusSuccess, []⟩
  | some m => ⟨wrapStatusError, m⟩

/-- Model of `PWrap.Callback` (pwrap/pwrap.go): skipped when the URL is
empty; otherwise POSTs the payload for the given error and succeeds only
on HTTP 200.  Returns the POSTed payloads and whether the call errored. -/
def Callback (e : RunEnv) (err : Option (List Char)) : List CallbackPost × Bool :=
  if e.regURL = [] then ([], false)
  else ([callbackPayload err], decide (¬ e.callbackStatus = 200))

/-- Observable outcome of one `PWrap.Run` invocation. -/
structure RunOutcome where
  registered : Bool
  workerLaunched : Bool
  serverLaunched : Bool
  callbacks : List CallbackPost
  err : Option RunErr
deriving DecidableEq

/-- Model of `PWrap.Run` (pwrap/pwrap.go): allocate a free port, register
it, run the worker phase (`p.run`: open the stdout/stderr files, launch the
child worker and the wrapper HTTP server, wait and shut down — its combined
outcome is `e.workerErr`), and only if that phase returned nil invoke
`Callback` (therefore always with a nil error); every failure returns
immediately. -/
def Run (e : RunEnv) : RunOutcome :=
  if e.portOk = false then ⟨false, false, false, [], some .portErr⟩
  else
    let reg := Register e
    if reg.2 then ⟨reg.1, false, false, [], some (.regErr e.registerStatus)⟩
    else if e.openFilesOk = false then ⟨reg.1, false, false, [], some .openErr⟩
    else
      match e.workerErr with
      | some m => ⟨reg.1, true, true, [], some (.workerErr m)⟩
      | none =>
          let cb := Callback e none
          if cb.2 then ⟨reg.1, true, true, cb.1, some (.callbackErr e.callbackStatus)⟩
          else ⟨reg.1, true, true, cb.1, none⟩

/-- Model of the `wrap` subcommand (cmd/wrap.go): `StartSession` passes
`--stderr=<workdir>/stderr`, the command's PreRun redirects the log output
to that file, and a failing `Run` fatally logs its error there.  The
stderr file is modelled as the list of errors logged to it. -/
def wrapMain (e : RunEnv) (stderr0 : List RunErr) : RunOutcome × List RunErr :=
  let o := Run e
  match o.err with
  | none => (o, stderr0)
  | some err => (o, stderr0 ++ [err])

/-- Claim C2 evidence of the code defect: with a registration URL
configured, a failing worker phase makes `Run` return the error without
POSTing any callback — `Run` calls `Callback` only after the nil check, so
the `error`-status branch of `Callback` is unreachable — while the success
path POSTs a single `success` callback with an empty message. -/
theorem run_failure_posts_no_callback :
    Run ⟨"u".data, true, 200, true, some "boom".data, 200⟩ =
      ⟨true, true, true, [], some (.workerErr "boom".data)⟩ ∧
    Run ⟨"u".data, true, 200, true, none, 200⟩ =
      ⟨true, true, true, [⟨wrapStatusSuccess, []⟩], none⟩ := by
  constructor <;> rfl

/-- Claim C6: when a registration URL is configured and the registration
POST is not answered with HTTP 200, `Run` fails with the registration
error before launching the worker or the wrapper HTTP server, and the
session's stderr file receives the error message; with an empty
registration URL, registration is skipped and `Run` proceeds to launch
both. -/
theorem register_gates_run (e : RunEnv) (st0 : List RunErr) (hp : e.portOk = true) :
    (¬ e.regURL = [] → ¬ e.registerStatus = 200 →
      (Run e).err = some (.regErr e.registerStatus) ∧
      (Run e).workerLaunched = false ∧ (Run e).serverLaunched = false ∧
      (wrapMain e st0).2 = st0 ++ [RunErr.regErr e.registerStatus]) ∧
    (e.regURL = [] →
      (Run e).registered = false ∧
      (e.openFilesOk = true →
        (Run e).workerLaunched = true ∧ (Run e).serverLaunched = true)) := by
  constructor
  · intro hr hs
    have hreg : Register e = (true, true) := by
      unfold Register
      rw [if_neg hr]
      simp [hs]
    have hrun : Run e = ⟨true, false, false, [], some (.regErr e.registerStatus)⟩ := by
      unfold Run
      rw [hp, hreg]
      simp
    refine ⟨by rw [hrun], by rw [hrun], by rw [hrun], ?_⟩
    unfold wrapMain
    rw [hrun]
  · intro hr
    have hreg : Register e = (false, false) := by
      unfold Register
      rw [if_pos hr]
    constructor
    · unfold Run
      rw [hp, hreg]
      cases hw : e.workerErr <;> cases ho : e.openFilesOk <;> simp [Callback, hr]
    · intro ho
      unfold Run
      rw [hp, hreg, ho]
      cases hw : e.workerErr <;> simp [Callback, hr]

/-- Witness for C6: a concrete environment whose registration POST is
answered with 500 (run fails, nothing launched, stderr written), and one
with no registration URL (run proceeds). -/
theorem register_gates_run_witness :
    (Run ⟨"u".data, true, 500, true, none, 200⟩).workerLaunched = false ∧
    (wrapMain ⟨"u".data, true, 500, true, none, 200⟩ []).2 = [RunErr.regErr 500] ∧
    (Run ⟨[], true, 500, true, none, 200⟩).registered = false ∧
    (Run ⟨[], true, 500, true, none, 200⟩).workerLaunched = true := by
  have h1 := register_gates_run ⟨"u".data, true, 500, true, none, 200⟩ [] rfl
  have h2 := register_gates_run ⟨[], true, 500, true, none, 200⟩ [] rfl
  have ha := h1.1 (by decide) (by decide)
  have hb := h2.2 rfl
  exact ⟨ha.2.1, ha.2.2.2, hb.1, (hb.2 rfl).1⟩

/-! ## Command POST handler (http/pwrapapi/router.go, commandHandler) -/

/-- Events the command handler emits, in the order it performs them:
writing the HTTP status header and writing data to the rendezvous
socket. -/
inductive CmdEv
  | status (code : Nat)
  | sockWrite (data : List Char)
deriving DecidableEq

/-- Model of `commandHandler` (http/pwrapapi/router.go).  A failed dial
answers 500.  Otherwise the handler writes the 200 status header first,
then buffers `mode=command\n`, the request body and a trailing newline,
and finally copies the buffer to the socket; a body-read or socket-write
failure after the header is only logged, emitting no further event. -/
def commandHandler (dialOk bodyReadOk sockWriteOk : Bool) (body : List Char) : List CmdEv :=
  if dialOk = false then [.status 500]
  else if bodyReadOk = false then [.status 200]
  else if sockWriteOk = false then [.status 200]
  else [.status 200, .sockWrite ("mode=command\n".data ++ body ++ "\n".data)]

/-- Claim C7 counterexample: when the socket write fails, the handler has
already answered 200 and no socket write ever completes, so the 200
response cannot reflect completion of the local write. -/
theorem command_status_before_write :
    commandHandler true true false "cancel".data = [CmdEv.status 200] ∧
    CmdEv.sockWrite ("mode=command\n".data ++ "cancel".data ++ "\n".data) ∉
      commandHandler true true false "cancel".data := by
  exact ⟨rfl, by decide⟩

/-- Claim C7 as amended: for every POST body, the handler dials the
rendezvous socket (answering 500 when the dial fails); on a successful
dial it answers 200 first — before, and regardless of, the socket write —
and when body read and socket write succeed it writes exactly
`mode=command\n`, the body, and a trailing newline to the socket. -/
theorem commandHandler_spec (dialOk bodyReadOk sockWriteOk : Bool) (body : List Char) :
    (dialOk = false →
      commandHandler dialOk bodyReadOk sockWriteOk body = [.status 500]) ∧
    (dialOk = true →
      (commandHandler dialOk bodyReadOk sockWriteOk body).head? = some (.status 200)) ∧
    (dialOk = true → bodyReadOk = true → sockWriteOk = true →
      commandHandler dialOk bodyReadOk sockWriteOk body =
        [.status 200, .sockWrite ("mode=command\n".data ++ body ++ "\n".data)]) := by
  refine ⟨?_, ?_, ?_⟩
  · intro h
    subst h
    rfl
  · intro h
    subst h
    cases bodyReadOk <;> cases sockWriteOk <;> simp [commandHandler]
  · intro h1 h2 h3
    subst h1; subst h2; subst h3
    rfl

/-- Witness for C7's amended theorem on concrete handler inputs. -/
theorem commandHandler_spec_witness :
    commandHandler true true true "cancel".data =
      [CmdEv.status 200,
       CmdEv.sockWrite ("mode=command\n".data ++ "cancel".data ++ "\n".data)] ∧
    commandHandler false true true "cancel".data = [CmdEv.status 500] := by
  have h := commandHandler_spec true true true "cancel".data
  have h2 := commandHandler_spec false true true "cancel".data
  exact ⟨h.2.2 rfl rfl rfl, h2.1 rfl⟩

/-! ## Comm-bridge multiplexer, small-step view (pwrap/ucb.go)

The concurrent behaviour of the progress multiplexer is modelled as a
transition system whose atomic actions are the code's mutex-protected
critical sections.  Payloads are identified by their index in the
producer's write sequence (1, 2, ...). -/

/-- One progress subscriber (ucb.go, `getTx` and `writeUpdates`):
whether its channel has been added to the clients map, the contents of its
capacity-1 channel (oldest first), the payload indexes delivered to its
connection so far, and the index of the latest write whose last-store
preceded the seeding (0 when none had). -/
structure Client where
  inserted : Bool
  chan : List Nat
  received : List Nat
  subTime : Nat
deriving DecidableEq

/-- Producer phase inside `UnixCommBridge.Write`: the payload index has
been stored as `last` but the clients mutex is not yet taken, or the
fan-out loop holds the clients mutex with the listed subscriber ids still
to be served. -/
inductive WritePh
  | setDone (k : Nat)
  | fanning (k : Nat) (rem : List Nat)
deriving DecidableEq

/-- Global state of the progress multiplexer: index of the payload stored
in `last` (0 while nil), index of the next payload the producer will
write, the in-flight write phase if any, and the subscribers in seeding
order. -/
structure Mux where
  lastIdx : Nat
  nextWrite : Nat
  pending : Option WritePh
  subs : List Client
deriving DecidableEq

/-- Initial multiplexer state: no payload stored, no write in flight, no
subscribers. -/
def Mux.start : Mux := ⟨0, 1, none, []⟩

/-- The ids currently present in the clients map (`b.clients.m`). -/
def insertedIds (subs : List Client) : List Nat :=
  subs.enum.filterMap (fun p => if p.2.inserted then some p.1 else none)

/-- Atomic actions.  For the producer (`Write`): store `last` under the
last mutex; take the clients mutex and snapshot the fan-out set; one
channel send (blocking while that channel is full); release the clients
mutex.  For a new subscriber (`getTx`): seed the fresh channel from `last`
under the last mutex; insert it into the map under the clients mutex.
`recv i` is one channel receive by subscriber `i`'s `writeUpdates` loop. -/
inductive Act
  | wSet
  | wLock
  | wSend (i : Nat)
  | wDone
  | seed
  | insChan (i : Nat)
  | recv (i : Nat)
deriving DecidableEq

/-- Enabled-step function: `none` when the action blocks or is impossible
in the given state (the needed mutex is held, the channel is full or
empty, or the subscriber does not exist). -/
def step (s : Mux) : Act → Option Mux
  | .wSet =>
    match s.pending with
    | none => some { s with lastIdx := s.nextWrite, nextWrite := s.nextWrite + 1,
                            pending := some (.setDone s.nextWrite) }
    | some _ => none
  | .wLock =>
    match s.pending with
    | some (.setDone k) => some { s with pending := some (.fanning k (insertedIds s.subs)) }
    | _ => none
  | .wSend i =>
    match s.pending with
    | some (.fanning k rem) =>
      if i ∈ rem then
        match s.subs[i]? with
        | some c =>
          if c.chan = [] then
            some { s with subs := s.subs.set i { c with chan := [k] },
                          pending := some (.fanning k (rem.erase i)) }
          else none
        | none => none
      else none
    | _ => none
  | .wDone =>
    match s.pending with
    | some (.fanning _ []) => some { s with pending := none }
    | _ => none
  | .seed =>
    some { s with subs := s.subs ++
      [⟨false, if s.lastIdx = 0 then [] else [s.lastIdx], [], s.lastIdx⟩] }
  | .insChan i =>
    match s.pending with
    | some (.fanning _ _) => none
    | _ =>
      match s.subs[i]? with
      | some c =>
        if c.inserted then none
        else some { s with subs := s.subs.set i { c with inserted := true } }
      | none => none
  | .recv i =>
    match s.subs[i]? with
    | some c =>
      if c.inserted then
        match c.chan with
        | x :: rest =>
          some { s with subs := s.subs.set i { c with chan := rest, received := c.received ++ [x] } }
        | [] => none
      else none
    | none => none

/-- Run a list of actions from a state; `none` when some action in the
list is not enabled where it occurs. -/
def runTrace : Mux → List Act → Option Mux
  | s, [] => some s
  | s, a :: rest =>
    match step s a with
    | some s2 => runTrace s2 rest
    | none => none

/-- Reachable states of the multiplexer. -/
def Reach (s : Mux) : Prop := ∃ acts : List Act, runTrace Mux.start acts = some s

/-- Per-subscriber invariant: the channel holds at most one payload, the
subscription index is a stored payload, the stream of received payloads
followed by the channel content is non-decreasing, and every payload in
it is at least the subscription index, at least 1, and already written. -/
def ClientInv (lastIdx : Nat) (c : Client) : Prop :=
  c.chan.length ≤ 1 ∧
  c.subTime ≤ lastIdx ∧
  List.Sorted (· ≤ ·) (c.received ++ c.chan) ∧
  ∀ x ∈ c.received ++ c.chan, c.subTime ≤ x ∧ 1 ≤ x ∧ x ≤ lastIdx

/-- In-flight write invariant: the payload being written is the stored
last payload and a real write index. -/
def PendInv (s : Mux) : Prop :=
  ∀ (k : Nat) (rem : List Nat),
    (s.pending = some (.setDone k) ∨ s.pending = some (.fanning k rem)) →
    k = s.lastIdx ∧ 1 ≤ k

/-- Global multiplexer invariant. -/
def MuxInv (s : Mux) : Prop :=
  1 ≤ s.nextWrite ∧ s.lastIdx < s.nextWrite ∧ PendInv s ∧
  ∀ c ∈ s.subs, ClientInv s.lastIdx c

/-- A client invariant survives growth of the written range. -/
lemma clientInv_mono {l l2 : Nat} (hl : l ≤ l2) {c : Client} (h : ClientInv l c) :
    ClientInv l2 c := by
  obtain ⟨h1, h2, h3, h4⟩ := h
  exact ⟨h1, le_trans h2 hl, h3, fun x hx =>
    ⟨(h4 x hx).1, (h4 x hx).2.1, le_trans (h4 x hx).2.2 hl⟩⟩

/-- An optional lookup hit is a member. -/
lemma mem_of_getElemQ {α : Type} {l : List α} {i : Nat} {a : α} (h : l[i]? = some a) :
    a ∈ l := by
  rw [List.getElem?_eq_some_iff] at h
  obtain ⟨hlt, rfl⟩ := h
  exact List.getElem_mem hlt

/-- Appending an upper bound keeps a list sorted. -/
lemma sorted_snoc {l : List Nat} {k : Nat} (h : List.Sorted (· ≤ ·) l)
    (hk : ∀ x ∈ l, x ≤ k) : List.Sorted (· ≤ ·) (l ++ [k]) := by
  rw [List.Sorted, List.pairwise_append]
  refine ⟨h, List.pairwise_singleton _ _, ?_⟩
  intro a ha b hb
  simp only [List.mem_singleton] at hb
  subst hb
  exact hk a ha

/-- The multiplexer invariant is preserved by every enabled step. -/
lemma muxInv_step {s s2 : Mux} {a : Act} (h : MuxInv s) (hs : step s a = some s2) :
    MuxInv s2 := by
  obtain ⟨hn, hl, hp, hc⟩ := h
  cases a with
  | wSet =>
    simp only [step] at hs
    split at hs
    case _ hpend =>
      obtain rfl := Option.some.inj hs
      refine ⟨?_, ?_, ?_, ?_⟩
      · show 1 ≤ s.nextWrite + 1
        omega
      · show s.nextWrite < s.nextWrite + 1
        omega
      · intro k rem hor
        rcases hor with h1 | h1
        · obtain rfl := WritePh.setDone.inj (Option.some.inj h1).symm
          exact ⟨rfl, hn⟩
        · exact absurd (Option.some.inj h1) (by intro hx; cases hx)
      · intro c hc2
        exact clientInv_mono (le_of_lt hl) (hc c hc2)
    case _ w hpend =>
      exact Option.noConfusion hs
  | wLock =>
    simp only [step] at hs
    split at hs
    case _ k hpend =>
      obtain rfl := Option.some.inj hs
      obtain ⟨hk1, hk2⟩ := hp k [] (Or.inl hpend)
      refine ⟨hn, hl, ?_, hc⟩
      intro k2 rem2 hor
      rcases hor with h1 | h1
      · exact absurd (Option.some.inj h1) (by intro hx; cases hx)
      · obtain ⟨rfl, -⟩ := WritePh.fanning.inj (Option.some.inj h1).symm
        exact ⟨hk1, hk2⟩
    case _ hpend h2 =>
      exact Option.noConfusion hs
  | wSend i =>
    simp only [step] at hs
    split at hs
    case _ k rem hpend =>
      obtain ⟨hk1, hk2⟩ := hp k rem (Or.inr hpend)
      split at hs
      case isTrue hmem =>
        split at hs
        case _ c hget =>
          split at hs
          case isTrue hchan =>
            obtain rfl := Option.some.inj hs
            refine ⟨hn, hl, ?_, ?_⟩
            · intro k2 rem2 hor
              rcases hor with h1 | h1
              · exact absurd (Option.some.inj h1) (by intro hx; cases hx)
              · obtain ⟨rfl, -⟩ := WritePh.fanning.inj (Option.some.inj h1).symm
                exact ⟨hk1, hk2⟩
            · intro c2 hc2
              rcases List.mem_or_eq_of_mem_set hc2 with hold | rfl
              · exact hc c2 hold
              · obtain ⟨g1, g2, g3, g4⟩ := hc c (mem_of_getElemQ hget)
                rw [hchan] at g3 g4
                simp only [List.append_nil] at g3 g4
                refine ⟨by simp, g2, ?_, ?_⟩
                · simp only
                  refine sorted_snoc g3 ?_
                  intro x hx
                  calc x ≤ s.lastIdx := (g4 x hx).2.2
                  _ = k := hk1.symm
                · intro x hx
                  simp only [List.mem_append, List.mem_singleton] at hx
                  rcases hx with hx | rfl
                  · exact g4 x hx
                  · exact ⟨le_of_le_of_eq g2 hk1.symm, hk2, le_of_eq hk1⟩
          case isFalse hchan =>
            exact Option.noConfusion hs
        case _ hget =>
          exact Option.noConfusion hs
      case isFalse hmem =>
        exact Option.noConfusion hs
    case _ hpend h2 =>
      exact Option.noConfusion hs
  | wDone =>
    simp only [step] at hs
    split at hs
    case _ k hpend =>
      obtain rfl := Option.some.inj hs
      refine ⟨hn, hl, ?_, hc⟩
      intro k2 rem2 hor
      rcases hor with h1 | h1 <;> exact Option.noConfusion h1
    case _ hpend h2 =>
      exact Option.noConfusion hs
  | seed =>
    simp only [step] at hs
    obtain rfl := Option.some.inj hs
    refine ⟨hn, hl, hp, ?_⟩
    intro c hc2
    rcases List.mem_append.mp hc2 with hold | hnew
    · exact hc c hold
    · simp only [List.mem_singleton] at hnew
      subst hnew
      by_cases hz : s.lastIdx = 0
      · rw [if_pos hz]
        exact ⟨by simp, le_refl _, by simp, by simp⟩
      · rw [if_neg hz]
        refine ⟨by simp, le_refl _, by simp, ?_⟩
        intro x hx
        simp only [List.nil_append, List.mem_singleton] at hx
        subst hx
        exact ⟨le_refl _, by omega, le_refl _⟩
  | insChan i =>
    simp only [step] at hs
    split at hs
    case _ k rem hpend =>
      exact Option.noConfusion hs
    case _ hpend =>
      split at hs
      case _ c hget =>
        split at hs
        case isTrue hins =>
          exact Option.noConfusion hs
        case isFalse hins =>
          obtain rfl := Option.some.inj hs
          refine ⟨hn, hl, hp, ?_⟩
          intro c2 hc2
          rcases List.mem_or_eq_of_mem_set hc2 with hold | rfl
          · exact hc c2 hold
          · obtain ⟨g1, g2, g3, g4⟩ := hc c (mem_of_getElemQ hget)
            exact ⟨g1, g2, g3, g4⟩
      case _ hget =>
        exact Option.noConfusion hs
  | recv i =>
    simp only [step] at hs
    split at hs
    case _ c hget =>
      split at hs
      case isTrue hins =>
        split at hs
        case _ x rest hchan =>
          obtain rfl := Option.some.inj hs
          refine ⟨hn, hl, hp, ?_⟩
          intro c2 hc2
          rcases List.mem_or_eq_of_mem_set hc2 with hold | rfl
          · exact hc c2 hold
          · obtain ⟨g1, g2, g3, g4⟩ := hc c (mem_of_getElemQ hget)
            rw [hchan] at g1 g3 g4
            have hre : c.received ++ [x] ++ rest = c.received ++ (x :: rest) := by
              rw [List.append_assoc, List.singleton_append]
            refine ⟨?_, g2, ?_, ?_⟩
            · simp only [List.length_cons] at g1
              simp only
              omega
            · simp only [hre]
              exact g3
            · intro y hy
              rw [hre] at hy
              exact g4 y hy
        case _ hchan =>
          exact Option.noConfusion hs
      case isFalse hins =>
        exact Option.noConfusion hs
    case _ hget =>
      exact Option.noConfusion hs

/-- The invariant is preserved along any enabled trace. -/
lemma muxInv_runTrace (acts : List Act) :
    ∀ s s2 : Mux, MuxInv s → runTrace s acts = some s2 → MuxInv s2 := by
  induction acts with
  | nil =>
    intro s s2 h hr
    obtain rfl := Option.some.inj hr
    exact h
  | cons a rest ih =>
    intro s s2 h hr
    simp only [runTrace] at hr
    split at hr
    case _ s3 hstep =>
      exact ih s3 s2 (muxInv_step h hstep) hr
    case _ hstep =>
      exact Option.noConfusion hr

/-- The initial state satisfies the invariant. -/
lemma muxInv_start : MuxInv Mux.start := by
  refine ⟨le_refl _, Nat.zero_lt_one, ?_, ?_⟩
  · intro k rem hor
    rcases hor with h1 | h1 <;> exact Option.noConfusion h1
  · intro c hc
    cases hc

/-- Every reachable state satisfies the invariant. -/
lemma muxInv_reach {s : Mux} (h : Reach s) : MuxInv s := by
  obtain ⟨acts, hr⟩ := h
  exact muxInv_runTrace acts Mux.start s muxInv_start hr

/-- Claim C4 counterexample: the fan-out runs under the clients mutex, not
the last mutex, so a write may store `last`, then a subscriber seeds from
`last` and is inserted before the fan-out snapshot — receiving payload 2
twice (once replayed, once fanned out).  The trace below reaches a state
whose only subscriber received the stream `[2, 2]` although the producer
wrote payloads 1, 2 (the write sequence `List.range' 1 2`), and `[2, 2]`
is not a subsequence of it. -/
theorem subscriber_duplicate_payload :
    runTrace Mux.start
      [Act.wSet, Act.wLock, Act.wDone, Act.wSet, Act.seed, Act.insChan 0,
       Act.wLock, Act.recv 0, Act.wSend 0, Act.wDone, Act.recv 0] =
      some ⟨2, 3, none, [⟨true, [], [2, 2], 2⟩]⟩ ∧
    ¬ List.Sublist [2, 2] (List.range' 1 2) := by
  exact ⟨rfl, by decide⟩

/-- Claim C4 as amended: in every reachable state, every subscriber's
received stream is a non-decreasing sequence of genuinely written payload
indexes — producer order is preserved, though the payload replayed at
subscription time can be observed a second time from the fan-out, so the
stream need not be a duplicate-free subsequence — and a subscriber that
subscribed when payload `i` was the latest never observes a payload
earlier than `i`. -/
theorem subscriber_order_spec (s : Mux) (h : Reach s) :
    ∀ c ∈ s.subs,
      List.Sorted (· ≤ ·) c.received ∧
      (∀ x ∈ c.received, c.subTime ≤ x ∧ 1 ≤ x ∧ x ≤ s.lastIdx) ∧
      (∀ j : Nat, c.received.head? = some j → c.subTime ≤ j) := by
  have hi := muxInv_reach h
  intro c hc
  obtain ⟨-, -, hsort, helem⟩ := hi.2.2.2 c hc
  have hmemUp : ∀ x ∈ c.received, x ∈ c.received ++ c.chan := by
    intro x hx
    exact List.mem_append_left _ hx
  refine ⟨?_, ?_, ?_⟩
  · exact List.Pairwise.sublist (List.sublist_append_left _ _) hsort
  · intro x hx
    exact helem x (hmemUp x hx)
  · intro j hj
    have hjm : j ∈ c.received := by
      cases hr : c.received with
      | nil =>
        rw [hr] at hj
        exact Option.noConfusion hj
      | cons b t =>
        rw [hr] at hj
        rw [List.head?_cons, Option.some_inj] at hj
        rw [hj]
        exact List.mem_cons_self j t
    exact (helem j (hmemUp j hjm)).1

/-- Witness for C4's amended theorem at the reachable duplicate state. -/
theorem subscriber_order_spec_witness :
    List.Sorted (· ≤ ·) ([2, 2] : List Nat) ∧ (2 : Nat) ≤ 2 := by
  have h := subscriber_order_spec ⟨2, 3, none, [⟨true, [], [2, 2], 2⟩]⟩
    ⟨[Act.wSet, Act.wLock, Act.wDone, Act.wSet, Act.seed, Act.insChan 0,
      Act.wLock, Act.recv 0, Act.wSend 0, Act.wDone, Act.recv 0], rfl⟩
    ⟨true, [], [2, 2], 2⟩ (List.mem_singleton.mpr rfl)
  exact ⟨h.1, h.2.2 2 rfl⟩

/-- State in which the producer's fan-out of payload 2 is stuck on the
full capacity-1 channel of subscriber 0 (which still buffers payload 1). -/
def blockedMux : Mux := ⟨2, 3, some (.fanning 2 [0]), [⟨true, [1], [], 0⟩]⟩

/-- Stuck-write shape: payload 2 is mid-fan-out towards subscriber 0,
whose channel is full, and every other subscriber is still outside the
clients map (inserts are blocked while the producer holds the clients
mutex). -/
def BlockedSt (s : Mux) : Prop :=
  s.pending = some (.fanning 2 [0]) ∧
  s.subs[0]? = some ⟨true, [1], [], 0⟩ ∧
  ∀ (i : Nat) (c : Client), ¬ i = 0 → s.subs[i]? = some c → c.inserted = false

/-- Any step other than a receive by subscriber 0 either is disabled in a
stuck-write state or leaves it stuck. -/
lemma blocked_step {s s2 : Mux} {a : Act} (hb : BlockedSt s) (hs : step s a = some s2) :
    a = Act.recv 0 ∨ BlockedSt s2 := by
  obtain ⟨hpend, hzero, hrest⟩ := hb
  cases a with
  | wSet =>
    simp [step, hpend] at hs
  | wLock =>
    simp [step, hpend] at hs
  | wSend i =>
    simp only [step, hpend] at hs
    by_cases hi : i ∈ ([0] : List Nat)
    · rw [if_pos hi] at hs
      have hi0 : i = 0 := List.mem_singleton.mp hi
      subst hi0
      simp [hzero] at hs
    · rw [if_neg hi] at hs
      exact Option.noConfusion hs
  | wDone =>
    simp [step, hpend] at hs
  | seed =>
    simp only [step] at hs
    obtain rfl := Option.some.inj hs
    right
    have hlen : 0 < s.subs.length := by
      rw [List.getElem?_eq_some_iff] at hzero
      obtain ⟨hlt, -⟩ := hzero
      omega
    refine ⟨hpend, ?_, ?_⟩
    · rw [List.getElem?_append_left (by omega)]
      exact hzero
    · intro i c hi hc
      by_cases hil : i < s.subs.length
      · rw [List.getElem?_append_left hil] at hc
        exact hrest i c hi hc
      · rw [List.getElem?_append_right (by omega)] at hc
        have hcv : c = ⟨false, if s.lastIdx = 0 then [] else [s.lastIdx], [], s.lastIdx⟩ := by
          rcases Nat.lt_or_ge (i - s.subs.length) 1 with hlt | hge
          · have hiz : i - s.subs.length = 0 := by omega
            rw [hiz] at hc
            exact (Option.some.inj hc).symm
          · rw [List.getElem?_eq_none (by simp; omega)] at hc
            exact Option.noConfusion hc
        rw [hcv]
  | insChan i =>
    simp [step, hpend] at hs
  | recv i =>
    by_cases hi : i = 0
    · subst hi
      exact Or.inl rfl
    · simp only [step] at hs
      cases hc : s.subs[i]? with
      | none =>
        rw [hc] at hs
        exact Option.noConfusion hs
      | some c =>
        rw [hc] at hs
        have hcf : c.inserted = false := hrest i c hi hc
        simp [hcf] at hs

/-- A stuck write stays stuck along any trace that contains no receive by
subscriber 0. -/
lemma blocked_runTrace (acts : List Act) :
    ∀ s s2 : Mux, BlockedSt s → ¬ Act.recv 0 ∈ acts →
      runTrace s acts = some s2 → BlockedSt s2 := by
  induction acts with
  | nil =>
    intro s s2 hb _ hr
    obtain rfl := Option.some.inj hr
    exact hb
  | cons a rest ih =>
    intro s s2 hb hmem hr
    simp only [runTrace] at hr
    cases hstep : step s a with
    | none =>
      rw [hstep] at hr
      exact Option.noConfusion hr
    | some s3 =>
      rw [hstep] at hr
      have hb3 : BlockedSt s3 := by
        rcases blocked_step hb hstep with hrecv | hb3
        · exact absurd (hrecv ▸ List.mem_cons_self a rest) hmem
        · exact hb3
      refine ih s3 s2 hb3 ?_ hr
      intro hmem2
      exact hmem (List.mem_cons_of_mem a hmem2)

/-- Claim C5 evidence of the defect the specification flags: the stuck
state is reachable (one subscriber holds an unread payload in its
capacity-1 channel while the producer writes payload 2), and from it no
trace avoiding a receive by that subscriber ever completes the write —
`Write` blocks on the full channel, so a slow subscriber stalls the
producer indefinitely. -/
theorem write_blocks_on_full_channel :
    runTrace Mux.start [Act.seed, Act.insChan 0, Act.wSet, Act.wLock, Act.wSend 0,
      Act.wDone, Act.wSet, Act.wLock] = some blockedMux ∧
    (∀ (acts : List Act) (s2 : Mux), ¬ Act.recv 0 ∈ acts →
      runTrace blockedMux acts = some s2 → ¬ s2.pending = none) := by
  refine ⟨rfl, ?_⟩
  intro acts s2 hmem hr
  have hb : BlockedSt s2 := by
    refine blocked_runTrace acts blockedMux s2 ⟨rfl, rfl, ?_⟩ hmem hr
    intro i c hi hc
    rw [List.getElem?_eq_none (by simp [blockedMux]; omega)] at hc
    exact Option.noConfusion hc
  rw [hb.1]
  exact fun hx => Option.noConfusion hx

/-- Witness for C5: after one further seeding step (no receive by the
stuck subscriber), the write of payload 2 is still incomplete. -/
theorem write_blocks_on_full_channel_witness :
    ∃ s2 : Mux, runTrace blockedMux [Act.seed] = some s2 ∧ ¬ s2.pending = none := by
  refine ⟨⟨2, 3, some (.fanning 2 [0]),
    [⟨true, [1], [], 0⟩, ⟨false, [2], [], 2⟩]⟩, rfl, ?_⟩
  exact write_blocks_on_full_channel.2 [Act.seed] _ (by decide) rfl

end Pmux
